import Mathlib

/-!
Verification of the GitHub Repository Organizer service (`main.py`) against its
specification. The API layer is translated from `src/main.py`; the storage
component (`MemoryStorage`, file `memory_storage.py`, not part of the sources)
is modelled from the specification, section 4.1.

Records are free-form JSON-like dictionaries (Python `dict`), modelled as
association lists from field names to values, with Python dict semantics:
lookup finds the (unique, by construction) binding; assignment replaces the
value in place if the key is present and appends otherwise, preserving
insertion order.
-/

/-- JSON-like field values occurring in repository records: strings, integers
(the `id` field) and lists of strings (the `tags` field). -/
inductive Val where
  | vStr (s : String)
  | vInt (n : Int)
  | vList (l : List String)
deriving DecidableEq, Repr

/-- A Python dictionary with string keys, as an association list in insertion
order. -/
abbrev Dict := List (String × Val)

/-- Python `d[k]` / `d.get(k)`: first binding of `k`, if any. -/
def lookupA {κ ν : Type} [DecidableEq κ] : List (κ × ν) → κ → Option ν
  | [], _ => none
  | (k', v) :: t, k => if k' = k then some v else lookupA t k

/-- Python `d[k] = v`: replace the binding in place if present, else append. -/
def setA {κ ν : Type} [DecidableEq κ] : List (κ × ν) → κ → ν → List (κ × ν)
  | [], k, v => [(k, v)]
  | (k', v') :: t, k, v => if k' = k then (k, v) :: t else (k', v') :: setA t k v

/-- Python `k in d`. -/
def memA {κ ν : Type} [DecidableEq κ] (d : List (κ × ν)) (k : κ) : Bool :=
  (lookupA d k).isSome

/-- Python `d.get(k, dflt)`. -/
def getDA {κ ν : Type} [DecidableEq κ] (d : List (κ × ν)) (k : κ) (dflt : ν) : ν :=
  (lookupA d k).getD dflt

/-- Python `d.update(u)`: merge `u` into `d`, overwriting the named keys. -/
def dictMerge (d : Dict) (u : Dict) : Dict :=
  u.foldl (fun acc kv => setA acc kv.1 kv.2) d

/-- Python `s.lower()`, viewed as a character list (ASCII lowering). -/
def lower (s : String) : List Char :=
  s.data.map Char.toLower

/-- Boolean prefix test on character lists. -/
def isPrefixCh : List Char → List Char → Bool
  | [], _ => true
  | _ :: _, [] => false
  | a :: as, b :: bs => a = b && isPrefixCh as bs

/-- Boolean substring (contiguous infix) test on character lists;
models Python `needle in hay` for strings. -/
def isSubCh (needle : List Char) : List Char → Bool
  | [] => isPrefixCh needle []
  | hay@(_ :: t) => isPrefixCh needle hay || isSubCh needle t

/-- Python `query.lower() in s.lower()`: case-insensitive substring test. -/
def containsCI (hay q : String) : Bool :=
  isSubCh (lower q) (lower hay)

/-- The storage state: the record collection in insertion order plus the
auto-incrementing id counter (spec section 3: "monotonically increasing
counter", first assigned id is 1 per the end-to-end scenario of section 8). -/
structure Storage where
  repos : List Dict
  nextId : Int
deriving DecidableEq, Repr

/-- The fresh storage a process starts with: empty collection, counter at 1. -/
def initStorage : Storage := ⟨[], 1⟩

/-- Does record `r` carry `id` field equal to `i`? Storage keys records by
their integer id. -/
def hasId (r : Dict) (i : Int) : Bool :=
  decide (lookupA r "id" = some (Val.vInt i))

namespace MemoryStorage

/-- Modelled from the spec: `memory_storage.py` is absent from the sources.
Section 4.1: "get_all_repos() → ordered sequence of all records, insertion
order. No error condition." -/
def get_all_repos (st : Storage) : List Dict :=
  st.repos

/-- Modelled from the spec: section 4.1: "get_repo(id) → the record with
matching id, or an absent-value result if not found." -/
def get_repo (st : Storage) (id : Int) : Option Dict :=
  st.repos.find? (fun r => hasId r id)

/-- Modelled from the spec: section 4.1: "add_repo(fields) → assigns the next
unused id, stores a shallow copy of the supplied fields plus the id, returns
the stored record." Storage performs no validation itself. -/
def add_repo (st : Storage) (fields : Dict) : Dict × Storage :=
  let newRepo := setA fields "id" (Val.vInt st.nextId)
  (newRepo, ⟨st.repos ++ [newRepo], st.nextId + 1⟩)

/-- Modelled from the spec: section 4.1: "update_repo(id, partial_fields) →
merges the supplied fields into the existing record (overwriting only the
named fields), returns the updated record; fails with a 'not found' condition
if id does not exist" (surfaced as `ValueError`, caught by the API layer). -/
def update_repo (st : Storage) (id : Int) (updates : Dict) :
    Except String (Dict × Storage) :=
  match get_repo st id with
  | none => .error ("Repo with id " ++ toString id ++ " not found")
  | some r =>
      let r' := dictMerge r updates
      .ok (r', ⟨st.repos.map (fun x => if hasId x id then r' else x), st.nextId⟩)

/-- Modelled from the spec: section 4.1: "delete_repo(id) → removes the record
if present, returns a boolean indicating whether a record was actually
removed." -/
def delete_repo (st : Storage) (id : Int) : Bool × Storage :=
  (st.repos.any (fun r => hasId r id),
   ⟨st.repos.filter (fun r => !hasId r id), st.nextId⟩)

/-- Does the string field `k` of `r` contain `q` case-insensitively?
Absent or non-string fields do not match. -/
def fieldContainsCI (r : Dict) (k : String) (q : String) : Bool :=
  match lookupA r k with
  | some (Val.vStr s) => containsCI s q
  | _ => false

/-- Does any entry of the `tags` list of `r` contain `q` case-insensitively? -/
def tagsContainCI (r : Dict) (q : String) : Bool :=
  match lookupA r "tags" with
  | some (Val.vList l) => l.any (fun t => containsCI t q)
  | _ => false

/-- A record matches a search query if its name, description, or any tags
entry contains the query case-insensitively (spec section 4.1). -/
def matchesQuery (q : String) (r : Dict) : Bool :=
  fieldContainsCI r "name" q || fieldContainsCI r "description" q ||
    tagsContainCI r q

/-- Modelled from the spec: section 4.1: "search_repos(query) → returns all
records whose name, description, or any tags entry contains the query string
as a case-insensitive substring." -/
def search_repos (st : Storage) (q : String) : List Dict :=
  st.repos.filter (matchesQuery q)

end MemoryStorage

/-- Outcome of an API call that did not return 200: either an
`HTTPException(status_code, detail)` raised deliberately, or an uncaught
Python exception (which FastAPI surfaces as a 500 server error). -/
inductive ApiErr where
  | http (code : Nat) (detail : String)
  | exc (msg : String)
deriving DecidableEq, Repr

namespace Api

/-- Predicate `repo["language"].lower() == language.lower()` from `main.py`
line 68: raises `KeyError` when the record has no `language` key,
`AttributeError` when the value is not a string. -/
def langPred (language : String) (repo : Dict) : Except ApiErr Bool :=
  match lookupA repo "language" with
  | none => .error (.exc "KeyError: language")
  | some (Val.vStr s) => .ok (decide (lower s = lower language))
  | some _ => .error (.exc "AttributeError: lower")

/-- Python iteration over `repo["tags"]` lowered element-wise: a list yields
its entries, a string yields its one-character substrings, an integer is not
iterable. -/
def lowerTags : Val → Except ApiErr (List (List Char))
  | Val.vList l => .ok (l.map lower)
  | Val.vStr s => .ok (s.data.map (fun c => [c.toLower]))
  | Val.vInt _ => .error (.exc "TypeError: not iterable")

/-- Predicate `tag.lower() in [t.lower() for t in repo["tags"]]` from
`main.py` line 75: raises `KeyError` when the record has no `tags` key. -/
def tagPred (tag : String) (repo : Dict) : Except ApiErr Bool :=
  match lookupA repo "tags" with
  | none => .error (.exc "KeyError: tags")
  | some v => do
      let ts ← lowerTags v
      pure (decide (lower tag ∈ ts))

/-- Predicate `repo["status"].lower() == status.lower()` from `main.py`
line 82. -/
def statusPred (status : String) (repo : Dict) : Except ApiErr Bool :=
  match lookupA repo "status" with
  | none => .error (.exc "KeyError: status")
  | some (Val.vStr s) => .ok (decide (lower s = lower status))
  | some _ => .error (.exc "AttributeError: lower")

/-- A Python list comprehension `[r for r in rs if p r]` whose predicate may
raise: the first exception aborts the whole comprehension. -/
def filterE (p : Dict → Except ApiErr Bool) : List Dict → Except ApiErr (List Dict)
  | [] => .ok []
  | r :: rest => do
      let b ← p r
      let rest' ← filterE p rest
      if b then pure (r :: rest') else pure rest'

/-- Statement `if param: results = [ ... ]` from `main.py`: a filter
parameter that is `None` or the empty string (falsy) leaves the results
untouched. -/
def applyFilter (param : Option String)
    (pred : String → Dict → Except ApiErr Bool)
    (rs : List Dict) : Except ApiErr (List Dict) :=
  match param with
  | none => .ok rs
  | some s => if s = "" then .ok rs else filterE (pred s) rs

/-- Endpoint `GET /repos` (`main.py` lines 45-88): list with optional `language`,
`tag`, `status` filters applied in that order. The response also carries
`total = results.length`, determined by the list. -/
def get_all_repos (st : Storage) (language tag status : Option String) :
    Except ApiErr (List Dict) := do
  let results := MemoryStorage.get_all_repos st
  let results ← applyFilter language langPred results
  let results ← applyFilter tag tagPred results
  let results ← applyFilter status statusPred results
  pure results

/-- Endpoint `GET /repos/{repo_id}` (`main.py` lines 91-106): point lookup,
404 when absent. -/
def get_repo (st : Storage) (repo_id : Int) : Except ApiErr Dict :=
  match MemoryStorage.get_repo st repo_id with
  | none => .error (.http 404 ("Repo with id " ++ toString repo_id ++ " not found"))
  | some r => .ok r

/-- Endpoint `POST /repos` (`main.py` lines 109-139): 400 when the body has no `url`
key, otherwise delegate to storage. Returns the stored record (the `repo`
field of the response) and the new storage state. -/
def add_repo (st : Storage) (repo : Dict) : Except ApiErr Dict × Storage :=
  if memA repo "url" = false then
    (.error (.http 400 "URL is required"), st)
  else
    let (newRepo, st') := MemoryStorage.add_repo st repo
    (.ok newRepo, st')

/-- Endpoint `PUT /repos/{repo_id}` (`main.py` lines 142-157): delegate to storage,
translating its `ValueError` into a 404. -/
def update_repo (st : Storage) (repo_id : Int) (updates : Dict) :
    Except ApiErr Dict × Storage :=
  match MemoryStorage.update_repo st repo_id updates with
  | .ok (r, st') => (.ok r, st')
  | .error e => (.error (.http 404 e), st)

/-- Endpoint `DELETE /repos/{repo_id}` (`main.py` lines 160-175): delegate to storage,
404 when nothing was removed. -/
def delete_repo (st : Storage) (repo_id : Int) : Except ApiErr String × Storage :=
  let (success, st') := MemoryStorage.delete_repo st repo_id
  if success then
    (.ok ("Repository " ++ toString repo_id ++ " deleted successfully"), st')
  else
    (.error (.http 404 ("Repo with id " ++ toString repo_id ++ " not found")), st')

/-- Endpoint `GET /repos/search/{query}` (`main.py` lines 178-191): delegate
to storage search; the response also carries the query and the total. -/
def search_repos (st : Storage) (query : String) : List Dict :=
  MemoryStorage.search_repos st query

/-- Counting loop `m[f r] = m.get(f r, 0) + 1` over all records, as in the
`/stats` endpoint of `main.py` (lines 208-217). -/
def countBy (f : Dict → Val) (l : List Dict) : List (Val × Nat) :=
  l.foldl (fun m r => setA m (f r) (getDA m (f r) 0 + 1)) []

/-- Endpoint `GET /stats` (`main.py` lines 194-223): total count plus
occurrence counts by language (`repo.get("language", "Unknown")`) and by
status (`repo.get("status", "unknown")`), each built by a Python
dict-counting loop. -/
def get_stats (st : Storage) : Nat × List (Val × Nat) × List (Val × Nat) :=
  let all_repos := MemoryStorage.get_all_repos st
  (all_repos.length,
   countBy (fun r => getDA r "language" (Val.vStr "Unknown")) all_repos,
   countBy (fun r => getDA r "status" (Val.vStr "unknown")) all_repos)

end Api

/-- One mutating API call, for reasoning about the collection's lifetime. -/
inductive Op where
  | add (body : Dict)
  | update (id : Int) (updates : Dict)
  | del (id : Int)

/-- The storage state after one API call (read-only calls do not change it). -/
def step (st : Storage) : Op → Storage
  | .add body => (Api.add_repo st body).2
  | .update id u => (Api.update_repo st id u).2
  | .del id => (Api.delete_repo st id).2

/-- The storage state after a sequence of API calls. -/
def runOps (st : Storage) : List Op → Storage
  | [] => st
  | op :: rest => runOps (step st op) rest

/-- The ids assigned by the successful creations along a call sequence, in
order of assignment. -/
def addedIds (st : Storage) : List Op → List Int
  | [] => []
  | .add body :: rest =>
      if memA body "url" then st.nextId :: addedIds (step st (.add body)) rest
      else addedIds (step st (.add body)) rest
  | op :: rest => addedIds (step st op) rest

/-- All ids present in the collection are below the counter; every state
reachable from `initStorage` satisfies this. -/
def StInv (st : Storage) : Prop :=
  ∀ r ∈ st.repos, ∀ n : Int, lookupA r "id" = some (Val.vInt n) → n < st.nextId

/-- Case-insensitive substring relation, as the spec words it: the lowered
query occurs contiguously inside the lowered string. -/
def SubstrCI (q s : String) : Prop :=
  ∃ a b, lower s = a ++ lower q ++ b

/-- What the spec says `search_repos` matches: the record's name,
description, or some tags entry contains the query case-insensitively. -/
def SpecMatch (q : String) (r : Dict) : Prop :=
  (∃ s, lookupA r "name" = some (Val.vStr s) ∧ SubstrCI q s) ∨
  (∃ s, lookupA r "description" = some (Val.vStr s) ∧ SubstrCI q s) ∨
  (∃ ts, lookupA r "tags" = some (Val.vList ts) ∧ ∃ t ∈ ts, SubstrCI q t)

/-- A record created legally (per spec, only `url` is required) that carries
no `language`, `tags` or `status` field. -/
def exRepoNoLang : Dict :=
  [("url", Val.vStr "https://github.com/a/b"), ("id", Val.vInt 1)]

/-- A collection holding only `exRepoNoLang`. -/
def exStNoLang : Storage := ⟨[exRepoNoLang], 2⟩

/-- A fully populated record with id 1. -/
def exRepo1 : Dict :=
  [("url", Val.vStr "https://github.com/user/repo"),
   ("name", Val.vStr "repo-name"),
   ("notes", Val.vStr "Good tutorial for FastAPI"),
   ("status", Val.vStr "to-try"),
   ("id", Val.vInt 1)]

/-- A collection holding only `exRepo1`, counter at 2. -/
def exSt1 : Storage := ⟨[exRepo1], 2⟩

/-- The partial update body setting only `status`. -/
def exUpd : Dict := [("status", Val.vStr "using")]

/-- Record `exRepo1` after the `exUpd` update: only `status` changed. -/
def exRepo1' : Dict :=
  [("url", Val.vStr "https://github.com/user/repo"),
   ("name", Val.vStr "repo-name"),
   ("notes", Val.vStr "Good tutorial for FastAPI"),
   ("status", Val.vStr "using"),
   ("id", Val.vInt 1)]

/-- The collection after updating `exRepo1` with `exUpd`. -/
def exSt1' : Storage := ⟨[exRepo1'], 2⟩

/-- A record whose description mentions "FastAPI" in mixed case. -/
def exRecFast : Dict :=
  [("url", Val.vStr "u"),
   ("description", Val.vStr "Good tutorial for FastAPI"),
   ("id", Val.vInt 1)]

/-- A collection holding only `exRecFast`. -/
def exStFast : Storage := ⟨[exRecFast], 2⟩

/-- Three records with languages Python, Python, Go (the `/stats` example). -/
def exStStats : Storage :=
  ⟨[[("url", Val.vStr "u1"), ("language", Val.vStr "Python"), ("id", Val.vInt 1)],
    [("url", Val.vStr "u2"), ("language", Val.vStr "Python"), ("id", Val.vInt 2)],
    [("url", Val.vStr "u3"), ("language", Val.vStr "Go"), ("id", Val.vInt 3)]], 4⟩

/-- A creation body holding only `url`. -/
def exBody : Dict := [("url", Val.vStr "https://github.com/a/b")]

/-- A call history with a deletion between two creations, exercising id
assignment across a delete. -/
def exOps : List Op := [Op.add exBody, Op.del 1, Op.add exBody]

/-! ### Association-list lemmas -/

/-- Looking up after a Python dict assignment: the assigned key reads the new
value, every other key is untouched. -/
theorem lookupA_setA {κ ν : Type} [DecidableEq κ] (d : List (κ × ν)) (k k' : κ) (v : ν) :
    lookupA (setA d k v) k' = if k = k' then some v else lookupA d k' := by
  induction d with
  | nil => by_cases h : k = k' <;> simp [setA, lookupA, h]
  | cons hd t ih =>
    obtain ⟨k0, v0⟩ := hd
    by_cases h0 : k0 = k
    · subst h0
      by_cases h1 : k0 = k' <;> simp [setA, lookupA, h1]
    · by_cases h1 : k0 = k' <;> by_cases h2 : k = k' <;>
        simp_all [setA, lookupA, ih]

theorem dictMerge_nil (d : Dict) : dictMerge d [] = d := rfl

theorem dictMerge_cons (d : Dict) (k : String) (v : Val) (t : Dict) :
    dictMerge d ((k, v) :: t) = dictMerge (setA d k v) t := rfl

/-- A key absent from an association list looks up to `none`. -/
theorem lookupA_eq_none_of_not_mem_keys {κ ν : Type} [DecidableEq κ]
    (d : List (κ × ν)) (k : κ) (h : k ∉ d.map Prod.fst) : lookupA d k = none := by
  induction d with
  | nil => rfl
  | cons hd t ih =>
    obtain ⟨k0, v0⟩ := hd
    simp only [List.map_cons, List.mem_cons] at h
    push_neg at h
    have h0 : ¬ k0 = k := fun hk => h.1 hk.symm
    simp [lookupA, h0, ih h.2]

/-- Merging fields not naming `k` leaves the binding of `k` unchanged. -/
theorem lookupA_dictMerge_of_none (u : Dict) (k : String)
    (h : lookupA u k = none) :
    ∀ d : Dict, lookupA (dictMerge d u) k = lookupA d k := by
  induction u with
  | nil => intro d; rfl
  | cons hd t ih =>
    obtain ⟨k0, v0⟩ := hd
    intro d
    simp only [lookupA] at h
    by_cases h0 : k0 = k
    · simp [h0] at h
    · simp only [h0, if_false] at h
      rw [dictMerge_cons, ih h, lookupA_setA]
      simp [h0]

/-- Merging fields that bind `k` (a Python dict: keys are unique) makes the
record read back exactly the merged value at `k`. -/
theorem lookupA_dictMerge_of_some (u : Dict) (k : String) (v : Val)
    (hn : (u.map Prod.fst).Nodup) (h : lookupA u k = some v) :
    ∀ d : Dict, lookupA (dictMerge d u) k = some v := by
  induction u with
  | nil => intro d; simp [lookupA] at h
  | cons hd t ih =>
    obtain ⟨k0, v0⟩ := hd
    intro d
    simp only [List.map_cons, List.nodup_cons] at hn
    simp only [lookupA] at h
    by_cases h0 : k0 = k
    · subst h0
      rw [if_pos rfl] at h
      injection h with h
      subst h
      have ht : lookupA t k0 = none :=
        lookupA_eq_none_of_not_mem_keys t k0 hn.1
      rw [dictMerge_cons, lookupA_dictMerge_of_none t k0 ht, lookupA_setA]
      simp
    · rw [if_neg h0] at h
      rw [dictMerge_cons]
      exact ih hn.2 h (setA d k0 v0)

/-! ### Counting lemmas for `/stats` -/

/-- The dict-counting loop computes, at every key, the number of hits of that
key, on top of whatever the accumulator already held. -/
theorem getDA_foldl_count {κ : Type} [DecidableEq κ] (f : Dict → κ) (l : List Dict) :
    ∀ (m : List (κ × Nat)) (k : κ),
      getDA (l.foldl (fun m r => setA m (f r) (getDA m (f r) 0 + 1)) m) k 0 =
        getDA m k 0 + (l.filter (fun r => decide (f r = k))).length := by
  induction l with
  | nil => intro m k; simp
  | cons r t ih =>
    intro m k
    simp only [List.foldl_cons, List.filter_cons]
    rw [ih]
    by_cases h : f r = k
    · subst h
      simp only [getDA, lookupA_setA, if_pos rfl, decide_True, if_true,
        List.length_cons, Option.getD_some]
      omega
    · simp [getDA, lookupA_setA, h]

/-- The `/stats` counting loop started from the empty dict counts exactly the
records hitting each key. -/
theorem getDA_countBy (f : Dict → Val) (l : List Dict) (k : Val) :
    getDA (Api.countBy f l) k 0 =
      (l.filter (fun r => decide (f r = k))).length := by
  unfold Api.countBy
  rw [getDA_foldl_count]
  simp [getDA, lookupA]

/-! ### Substring lemmas -/

/-- The boolean prefix test agrees with list-prefix decomposition. -/
theorem isPrefixCh_iff (n : List Char) :
    ∀ h, isPrefixCh n h = true ↔ ∃ t, h = n ++ t := by
  induction n with
  | nil => intro h; simp [isPrefixCh]
  | cons a as ih =>
    intro h
    cases h with
    | nil => simp [isPrefixCh]
    | cons b bs =>
      simp only [isPrefixCh, Bool.and_eq_true, decide_eq_true_eq, ih,
        List.cons_append, List.cons.injEq]
      constructor
      · rintro ⟨rfl, t, rfl⟩
        exact ⟨t, rfl, rfl⟩
      · rintro ⟨t, rfl, rfl⟩
        exact ⟨rfl, t, rfl⟩

/-- The boolean substring test agrees with contiguous-infix decomposition. -/
theorem isSubCh_iff (n : List Char) :
    ∀ h, isSubCh n h = true ↔ ∃ a b, h = a ++ n ++ b := by
  intro h
  induction h with
  | nil =>
    simp only [isSubCh, isPrefixCh_iff]
    constructor
    · rintro ⟨t, ht⟩
      exact ⟨[], t, ht⟩
    · rintro ⟨a, b, hab⟩
      rw [List.append_assoc] at hab
      rcases List.append_eq_nil.mp hab.symm with ⟨rfl, h2⟩
      exact ⟨b, by simpa using hab⟩
  | cons c t ih =>
    simp only [isSubCh, Bool.or_eq_true, isPrefixCh_iff, ih]
    constructor
    · rintro (⟨tl, htl⟩ | ⟨a, b, hab⟩)
      · exact ⟨[], tl, by simpa using htl⟩
      · exact ⟨c :: a, b, by simp [hab]⟩
    · rintro ⟨a, b, hab⟩
      cases a with
      | nil =>
        exact Or.inl ⟨b, by simpa using hab⟩
      | cons x xs =>
        right
        simp only [List.cons_append, List.cons.injEq] at hab
        exact ⟨xs, b, hab.2⟩

/-- The embedded Python test `q.lower() in s.lower()` agrees with the
spec-side case-insensitive substring relation. -/
theorem containsCI_iff (hay q : String) :
    containsCI hay q = true ↔ SubstrCI q hay :=
  isSubCh_iff (lower q) (lower hay)

/-! ### Filter and find lemmas -/

/-- No record satisfying `p` survives filtering by the negation of `p`. -/
theorem find?_filter_not {α : Type} (l : List α) (p : α → Bool) :
    List.find? p (l.filter (fun r => !p r)) = none := by
  apply List.find?_eq_none.mpr
  intro x hx
  have hp := (List.mem_filter.mp hx).2
  simp only [Bool.not_eq_eq_eq_not, Bool.not_true] at hp
  simp [hp]

/-- Filtering by the negation of `p` kills every `p`-hit. -/
theorem any_filter_not {α : Type} (l : List α) (p : α → Bool) :
    (l.filter (fun r => !p r)).any p = false := by
  rw [Bool.eq_false_iff]
  intro hc
  rcases List.any_eq_true.mp hc with ⟨x, hx, hpx⟩
  have hp := (List.mem_filter.mp hx).2
  simp [hpx] at hp

/-! ### Endpoint-level helper lemmas -/

/-- The state coming out of the delete endpoint is the storage state after
the delete, whether or not a record was removed. -/
theorem api_delete_state (st : Storage) (id : Int) :
    (Api.delete_repo st id).2 = (MemoryStorage.delete_repo st id).2 := by
  cases hms : MemoryStorage.delete_repo st id with
  | mk success st' =>
    unfold Api.delete_repo
    rw [hms]
    cases success <;> rfl

/-- After a delete, no record with the deleted id remains to be found. -/
theorem get_repo_after_delete (st : Storage) (id : Int) :
    MemoryStorage.get_repo (MemoryStorage.delete_repo st id).2 id = none := by
  unfold MemoryStorage.get_repo MemoryStorage.delete_repo
  exact find?_filter_not _ _

/-- After a delete, a second delete of the same id finds nothing to remove. -/
theorem delete_twice_any (st : Storage) (id : Int) :
    ((MemoryStorage.delete_repo st id).2).repos.any (fun r => hasId r id) = false := by
  unfold MemoryStorage.delete_repo
  exact any_filter_not _ _

/-- The delete endpoint succeeds when some record carries the id. -/
theorem api_delete_ok (st : Storage) (id : Int)
    (h : st.repos.any (fun r => hasId r id) = true) :
    (Api.delete_repo st id).1 =
      .ok ("Repository " ++ toString id ++ " deleted successfully") := by
  unfold Api.delete_repo MemoryStorage.delete_repo
  simp [h]

/-- The delete endpoint answers 404 when no record carries the id. -/
theorem api_delete_fail (st : Storage) (id : Int)
    (h : st.repos.any (fun r => hasId r id) = false) :
    (Api.delete_repo st id).1 =
      .error (.http 404 ("Repo with id " ++ toString id ++ " not found")) := by
  unfold Api.delete_repo MemoryStorage.delete_repo
  simp [h]

/-- The point-lookup endpoint answers 404 when storage finds nothing. -/
theorem api_get_fail (st : Storage) (id : Int)
    (h : MemoryStorage.get_repo st id = none) :
    Api.get_repo st id =
      .error (.http 404 ("Repo with id " ++ toString id ++ " not found")) := by
  unfold Api.get_repo
  rw [h]

/-! ### Claims -/

/-- C1: the claim says `GET /repos?language=L` (and the `tag` / `status`
filters) returns exactly the case-insensitive matches, including when some
record was created without the filtered field. The code instead reads
`repo["language"]` (and `repo["tags"]`, `repo["status"]`) with bracket
access, so on a legally created record lacking the field each filtered
request raises `KeyError` — an unhandled exception (HTTP 500) — rather than
excluding the record. This theorem evaluates the embedded endpoint at that
failing input: one record holding only `url` and `id`. -/
theorem C1_filter_keyerror_on_missing_field :
    Api.get_all_repos exStNoLang (some "Python") none none =
      .error (.exc "KeyError: language") ∧
    Api.get_all_repos exStNoLang none (some "backend") none =
      .error (.exc "KeyError: tags") ∧
    Api.get_all_repos exStNoLang none none (some "using") =
      .error (.exc "KeyError: status") :=
  ⟨rfl, rfl, rfl⟩

/-- C2: creating a record whose body lacks the `url` key fails with status
400 "URL is required" and returns the storage — records and id counter —
exactly as it was. -/
theorem C2_create_without_url (st : Storage) (body : Dict)
    (h : lookupA body "url" = none) :
    Api.add_repo st body = (.error (.http 400 "URL is required"), st) := by
  simp [Api.add_repo, memA, h]

/-- Witness for C2: the empty body against the fresh storage. -/
theorem C2_create_without_url_witness :
    lookupA ([] : Dict) "url" = none ∧
      Api.add_repo initStorage [] =
        (.error (.http 400 "URL is required"), initStorage) :=
  ⟨rfl, C2_create_without_url initStorage [] rfl⟩

/-- C3: updating an id that no record carries fails with a distinguishable
404 and returns the collection unchanged. -/
theorem C3_update_nonexistent (st : Storage) (id : Int) (updates : Dict)
    (h : ∀ r ∈ st.repos, hasId r id = false) :
    Api.update_repo st id updates =
      (.error (.http 404 ("Repo with id " ++ toString id ++ " not found")), st) := by
  have hfind : MemoryStorage.get_repo st id = none := by
    apply List.find?_eq_none.mpr
    intro x hx
    simp [h x hx]
  simp [Api.update_repo, MemoryStorage.update_repo, hfind]

/-- Witness for C3: updating id 1 in the empty collection. -/
theorem C3_update_nonexistent_witness :
    (∀ r ∈ initStorage.repos, hasId r 1 = false) ∧
      Api.update_repo initStorage 1 exUpd =
        (.error (.http 404 ("Repo with id " ++ toString (1 : Int) ++ " not found")),
          initStorage) :=
  ⟨by simp [initStorage], C3_update_nonexistent initStorage 1 exUpd (by simp [initStorage])⟩

/-- C10: a `language`, `tag` or `status` query parameter supplied as the
empty string is falsy in the `if` guards of `main.py`, so it imposes no
constraint: the endpoint behaves exactly as if the parameter were absent. -/
theorem C10_empty_filter_no_constraint (st : Storage)
    (language tag status : Option String) :
    Api.get_all_repos st (some "") tag status =
        Api.get_all_repos st none tag status ∧
    Api.get_all_repos st language (some "") status =
        Api.get_all_repos st language none status ∧
    Api.get_all_repos st language tag (some "") =
        Api.get_all_repos st language tag none :=
  ⟨rfl, rfl, rfl⟩

/-- C5: deleting a present record succeeds; afterwards `GET /repos/{id}`
answers 404, and a second delete of the same id answers 404 rather than
success. -/
theorem C5_delete_then_get (st : Storage) (id : Int)
    (h : ∃ r, MemoryStorage.get_repo st id = some r) :
    (Api.delete_repo st id).1 =
      .ok ("Repository " ++ toString id ++ " deleted successfully") ∧
    Api.get_repo (Api.delete_repo st id).2 id =
      .error (.http 404 ("Repo with id " ++ toString id ++ " not found")) ∧
    (Api.delete_repo (Api.delete_repo st id).2 id).1 =
      .error (.http 404 ("Repo with id " ++ toString id ++ " not found")) := by
  obtain ⟨r, hr⟩ := h
  have hr' : st.repos.find? (fun x => hasId x id) = some r := hr
  have hpr := List.find?_some hr'
  have hany : st.repos.any (fun x => hasId x id) = true :=
    List.any_eq_true.mpr ⟨r, List.mem_of_find?_eq_some hr', hpr⟩
  refine ⟨api_delete_ok st id hany, ?_, ?_⟩
  · rw [api_delete_state]
    exact api_get_fail _ _ (get_repo_after_delete st id)
  · rw [api_delete_state]
    exact api_delete_fail _ _ (delete_twice_any st id)

/-- Witness for C5: deleting id 1 from the one-record collection `exSt1`. -/
theorem C5_delete_then_get_witness :
    (∃ r, MemoryStorage.get_repo exSt1 1 = some r) ∧
      ((Api.delete_repo exSt1 1).1 =
          .ok ("Repository " ++ toString (1 : Int) ++ " deleted successfully") ∧
        Api.get_repo (Api.delete_repo exSt1 1).2 1 =
          .error (.http 404 ("Repo with id " ++ toString (1 : Int) ++ " not found")) ∧
        (Api.delete_repo (Api.delete_repo exSt1 1).2 1).1 =
          .error (.http 404 ("Repo with id " ++ toString (1 : Int) ++ " not found"))) :=
  ⟨⟨exRepo1, rfl⟩, C5_delete_then_get exSt1 1 ⟨exRepo1, rfl⟩⟩

/-- C4: a successful partial update overwrites exactly the supplied fields
of the targeted record; every field not named in the update, every record
not carrying the id, and the id counter keep their prior values. -/
theorem C4_update_frame (st : Storage) (id : Int) (u r r' : Dict) (st' : Storage)
    (hu : (u.map Prod.fst).Nodup)
    (hr : MemoryStorage.get_repo st id = some r)
    (hok : MemoryStorage.update_repo st id u = .ok (r', st')) :
    (∀ k v, lookupA u k = some v → lookupA r' k = some v) ∧
    (∀ k, lookupA u k = none → lookupA r' k = lookupA r k) ∧
    st'.nextId = st.nextId ∧
    st'.repos.length = st.repos.length ∧
    (∀ (j : Nat) (x : Dict), st.repos[j]? = some x → hasId x id = false →
        st'.repos[j]? = some x) := by
  unfold MemoryStorage.update_repo at hok
  rw [hr] at hok
  simp only [Except.ok.injEq, Prod.mk.injEq] at hok
  obtain ⟨hr', hst'⟩ := hok
  subst hr'
  subst hst'
  refine ⟨?_, ?_, rfl, by simp, ?_⟩
  · intro k v hkv
    exact lookupA_dictMerge_of_some u k v hu hkv r
  · intro k hk
    exact lookupA_dictMerge_of_none u k hk r
  · intro j x hj hx
    rw [List.getElem?_map, hj]
    simp [hx]

/-- Witness for C4: updating only `status` of the one record of `exSt1`. -/
theorem C4_update_frame_witness :
    ((exUpd.map Prod.fst).Nodup ∧
      MemoryStorage.get_repo exSt1 1 = some exRepo1 ∧
      MemoryStorage.update_repo exSt1 1 exUpd = .ok (exRepo1', exSt1')) ∧
    ((∀ k v, lookupA exUpd k = some v → lookupA exRepo1' k = some v) ∧
      (∀ k, lookupA exUpd k = none → lookupA exRepo1' k = lookupA exRepo1 k) ∧
      exSt1'.nextId = exSt1.nextId ∧
      exSt1'.repos.length = exSt1.repos.length ∧
      (∀ (j : Nat) (x : Dict), exSt1.repos[j]? = some x → hasId x 1 = false →
          exSt1'.repos[j]? = some x)) :=
  ⟨⟨by decide, by rfl, by rfl⟩,
    C4_update_frame exSt1 1 exUpd exRepo1 exRepo1' exSt1' (by decide) (by rfl) (by rfl)⟩

/-- The boolean field matcher of the modelled search agrees with its
spec-side description. -/
theorem fieldContainsCI_iff (r : Dict) (k q : String) :
    MemoryStorage.fieldContainsCI r k q = true ↔
      ∃ s, lookupA r k = some (Val.vStr s) ∧ SubstrCI q s := by
  unfold MemoryStorage.fieldContainsCI
  split
  · rename_i s heq
    rw [containsCI_iff]
    constructor
    · intro hs
      exact ⟨s, heq, hs⟩
    · rintro ⟨s', heq', hs'⟩
      rw [heq] at heq'
      simp only [Option.some.injEq, Val.vStr.injEq] at heq'
      rw [heq']
      exact hs'
  · rename_i hne
    simp only [Bool.false_eq_true, false_iff]
    rintro ⟨s, heq, _⟩
    exact hne s heq

/-- The boolean tags matcher of the modelled search agrees with its
spec-side description. -/
theorem tagsContainCI_iff (r : Dict) (q : String) :
    MemoryStorage.tagsContainCI r q = true ↔
      ∃ ts, lookupA r "tags" = some (Val.vList ts) ∧ ∃ t ∈ ts, SubstrCI q t := by
  unfold MemoryStorage.tagsContainCI
  split
  · rename_i ts heq
    rw [List.any_eq_true]
    constructor
    · rintro ⟨t, ht, hc⟩
      exact ⟨ts, heq, t, ht, (containsCI_iff t q).mp hc⟩
    · rintro ⟨ts', heq', t, ht, hs⟩
      rw [heq] at heq'
      simp only [Option.some.injEq, Val.vList.injEq] at heq'
      subst heq'
      exact ⟨t, ht, (containsCI_iff t q).mpr hs⟩
  · rename_i hne
    simp only [Bool.false_eq_true, false_iff]
    rintro ⟨ts, heq, _⟩
    exact hne ts heq

/-- The boolean query matcher agrees with the spec-side match predicate. -/
theorem matchesQuery_iff (q : String) (r : Dict) :
    MemoryStorage.matchesQuery q r = true ↔ SpecMatch q r := by
  unfold MemoryStorage.matchesQuery SpecMatch
  simp only [Bool.or_eq_true, fieldContainsCI_iff, tagsContainCI_iff, or_assoc]

/-- C7: search returns exactly the records whose name, description, or some
tags entry contains the query as a case-insensitive substring; in particular
the lowercase query "fastapi" matches a record whose description contains
"FastAPI". -/
theorem C7_search_characterisation :
    (∀ (st : Storage) (q : String) (r : Dict),
        r ∈ Api.search_repos st q ↔ r ∈ st.repos ∧ SpecMatch q r) ∧
    exRecFast ∈ Api.search_repos exStFast "fastapi" := by
  constructor
  · intro st q r
    unfold Api.search_repos MemoryStorage.search_repos
    rw [List.mem_filter, matchesQuery_iff]
  · decide

/-- C8: `/stats` returns the record count, and the by-language / by-status
tables send every value to its occurrence count, with "Unknown" (resp.
"unknown") substituted for records missing the field; on the 3-record
Python/Python/Go example it returns total 3, Python ↦ 2, Go ↦ 1. -/
theorem C8_stats_counts :
    (∀ st : Storage, (Api.get_stats st).1 = st.repos.length) ∧
    (∀ (st : Storage) (v : Val),
        getDA (Api.get_stats st).2.1 v 0 =
          (st.repos.filter
            (fun r => decide (getDA r "language" (Val.vStr "Unknown") = v))).length) ∧
    (∀ (st : Storage) (v : Val),
        getDA (Api.get_stats st).2.2 v 0 =
          (st.repos.filter
            (fun r => decide (getDA r "status" (Val.vStr "unknown") = v))).length) ∧
    ((Api.get_stats exStStats).1 = 3 ∧
      getDA (Api.get_stats exStStats).2.1 (Val.vStr "Python") 0 = 2 ∧
      getDA (Api.get_stats exStStats).2.1 (Val.vStr "Go") 0 = 1) :=
  ⟨fun _ => rfl,
   fun st v => getDA_countBy _ st.repos v,
   fun st v => getDA_countBy _ st.repos v,
   by decide, by decide, by decide⟩

/-- C9: creating a record through the API and immediately reading the id it
returned yields exactly the record the creation returned. The invariant that
stored ids stay below the counter rules out an older record shadowing the
fresh id. -/
theorem C9_create_then_get (st : Storage) (body : Dict)
    (hurl : memA body "url" = true) (hinv : StInv st) :
    ∃ r, (Api.add_repo st body).1 = .ok r ∧
      lookupA r "id" = some (Val.vInt st.nextId) ∧
      Api.get_repo (Api.add_repo st body).2 st.nextId = .ok r := by
  refine ⟨setA body "id" (Val.vInt st.nextId), ?_, ?_, ?_⟩
  · simp [Api.add_repo, hurl, MemoryStorage.add_repo]
  · rw [lookupA_setA]
    simp
  · have hmain : List.find? (fun r => hasId r st.nextId) st.repos = none := by
      apply List.find?_eq_none.mpr
      intro x hx hc
      have hid : lookupA x "id" = some (Val.vInt st.nextId) := of_decide_eq_true hc
      exact absurd (hinv x hx st.nextId hid) (lt_irrefl _)
    have hnew : hasId (setA body "id" (Val.vInt st.nextId)) st.nextId = true := by
      unfold hasId
      rw [lookupA_setA]
      simp
    simp [Api.add_repo, hurl, MemoryStorage.add_repo, Api.get_repo,
      MemoryStorage.get_repo, List.find?_append, hmain, hnew]

/-- Witness for C9: creating from the fresh storage with a url-only body. -/
theorem C9_create_then_get_witness :
    (memA exBody "url" = true ∧ StInv initStorage) ∧
      (∃ r, (Api.add_repo initStorage exBody).1 = .ok r ∧
        lookupA r "id" = some (Val.vInt initStorage.nextId) ∧
        Api.get_repo (Api.add_repo initStorage exBody).2 initStorage.nextId = .ok r) :=
  ⟨⟨by decide, by unfold StInv; intro r hr; simp [initStorage] at hr⟩,
    C9_create_then_get initStorage exBody (by decide)
      (by unfold StInv; intro r hr; simp [initStorage] at hr)⟩

/-- A single API call never decreases the id counter. -/
theorem nextId_step_le (st : Storage) (op : Op) : st.nextId ≤ (step st op).nextId := by
  cases op with
  | add body =>
    by_cases h : memA body "url" = true
    · have he : (step st (Op.add body)).nextId = st.nextId + 1 := by
        simp [step, Api.add_repo, h, MemoryStorage.add_repo]
      rw [he]
      omega
    · have he : step st (Op.add body) = st := by
        simp [step, Api.add_repo, Bool.eq_false_iff.mpr (fun hc => h hc)]
      rw [he]
  | update id u =>
    simp only [step]
    cases hm : MemoryStorage.update_repo st id u with
    | error e => simp [Api.update_repo, hm]
    | ok pr =>
      obtain ⟨r, st'⟩ := pr
      have h2 : (Api.update_repo st id u).2 = st' := by
        simp [Api.update_repo, hm]
      rw [h2]
      unfold MemoryStorage.update_repo at hm
      cases hg : MemoryStorage.get_repo st id with
      | none => rw [hg] at hm; cases hm
      | some r0 =>
        rw [hg] at hm
        simp only [Except.ok.injEq, Prod.mk.injEq] at hm
        rw [← hm.2]
  | del id =>
    simp only [step]
    unfold Api.delete_repo MemoryStorage.delete_repo
    split
    rename_i success st' heq
    injection heq with h1 h2
    subst h2
    split <;> exact le_refl _

/-- A whole call sequence never decreases the id counter. -/
theorem nextId_runOps_le (ops : List Op) :
    ∀ st : Storage, st.nextId ≤ (runOps st ops).nextId := by
  induction ops with
  | nil => intro st; exact le_refl _
  | cons op rest ih =>
    intro st
    exact le_trans (nextId_step_le st op) (ih (step st op))

/-- Every id assigned along a call sequence lies between the counter at the
start and (strictly below) the counter at the end. -/
theorem addedIds_bounds (ops : List Op) :
    ∀ st : Storage, ∀ i ∈ addedIds st ops,
      st.nextId ≤ i ∧ i < (runOps st ops).nextId := by
  induction ops with
  | nil => intro st i hi; simp [addedIds] at hi
  | cons op rest ih =>
    intro st i hi
    have hstep : st.nextId ≤ (step st op).nextId := nextId_step_le st op
    cases op with
    | add body =>
      simp only [addedIds] at hi
      by_cases h : memA body "url" = true
      · rw [if_pos h] at hi
        rcases List.mem_cons.mp hi with rfl | hi'
        · refine ⟨le_refl _, ?_⟩
          have h1 : (step st (Op.add body)).nextId = st.nextId + 1 := by
            simp [step, Api.add_repo, h, MemoryStorage.add_repo]
          have h2 := nextId_runOps_le rest (step st (Op.add body))
          show st.nextId < (runOps (step st (Op.add body)) rest).nextId
          omega
        · have hb := ih (step st (Op.add body)) i hi'
          exact ⟨le_trans hstep hb.1, hb.2⟩
      · rw [if_neg h] at hi
        have hb := ih (step st (Op.add body)) i hi
        exact ⟨le_trans hstep hb.1, hb.2⟩
    | update id u =>
      simp only [addedIds] at hi
      have hb := ih (step st (Op.update id u)) i hi
      exact ⟨le_trans hstep hb.1, hb.2⟩
    | del id =>
      simp only [addedIds] at hi
      have hb := ih (step st (Op.del id)) i hi
      exact ⟨le_trans hstep hb.1, hb.2⟩

/-- The ids assigned along any call sequence are strictly increasing. -/
theorem addedIds_sorted (ops : List Op) :
    ∀ st : Storage, (addedIds st ops).Pairwise (· < ·) := by
  induction ops with
  | nil => intro st; simp [addedIds]
  | cons op rest ih =>
    intro st
    cases op with
    | add body =>
      simp only [addedIds]
      by_cases h : memA body "url" = true
      · rw [if_pos h]
        refine List.Pairwise.cons ?_ (ih _)
        intro i hi
        have hb := (addedIds_bounds rest (step st (Op.add body)) i hi).1
        have h1 : (step st (Op.add body)).nextId = st.nextId + 1 := by
          simp [step, Api.add_repo, h, MemoryStorage.add_repo]
        omega
      · rw [if_neg h]
        exact ih _
    | update id u =>
      simp only [addedIds]
      exact ih _
    | del id =>
      simp only [addedIds]
      exact ih _

/-- C6: after any call history from the fresh storage, a creation whose body
contains `url` succeeds and returns a record whose id is the current counter
value, strictly greater than every id assigned earlier in the collection's
lifetime (so ids are never reused, even after deletes); moreover the
sequence of assigned ids of any history is strictly increasing, hence all
distinct. -/
theorem C6_id_unique_increasing (ops : List Op) (body : Dict)
    (hurl : memA body "url" = true) :
    (∃ r, (Api.add_repo (runOps initStorage ops) body).1 = .ok r ∧
        lookupA r "id" = some (Val.vInt (runOps initStorage ops).nextId)) ∧
    (∀ i ∈ addedIds initStorage ops, i < (runOps initStorage ops).nextId) ∧
    (addedIds initStorage ops).Pairwise (· < ·) := by
  refine ⟨⟨setA body "id" (Val.vInt (runOps initStorage ops).nextId), ?_, ?_⟩, ?_, ?_⟩
  · simp [Api.add_repo, hurl, MemoryStorage.add_repo]
  · rw [lookupA_setA]
    simp
  · intro i hi
    exact (addedIds_bounds ops initStorage i hi).2
  · exact addedIds_sorted ops initStorage

/-- Witness for C6: a history with a delete between two creations. -/
theorem C6_id_unique_increasing_witness :
    memA exBody "url" = true ∧
      ((∃ r, (Api.add_repo (runOps initStorage exOps) exBody).1 = .ok r ∧
          lookupA r "id" = some (Val.vInt (runOps initStorage exOps).nextId)) ∧
        (∀ i ∈ addedIds initStorage exOps, i < (runOps initStorage exOps).nextId) ∧
        (addedIds initStorage exOps).Pairwise (· < ·)) :=
  ⟨by decide, C6_id_unique_increasing exOps exBody (by decide)⟩
